import Mathlib

/-!
Shallow embedding of the fixkit test-generation and localization components:
`test_generator.py`, `avicenna_test_generator.py`, `fuzzer_test_generator.py`
and `localization/modifier.py`.  Candidates are modelled by their stable
string form (the code compares and stores `str(inp)`); float weights are
modelled by rationals; the file system under `out/test_cases` is modelled
as an optional association list from file names to file contents.
-/

namespace Fixkit

/-- Verdicts returned by the oracle (`avicenna.data.OracleResult`). -/
inductive OracleResult where
  | PASSING
  | FAILING
  | UNDEFINED
deriving DecidableEq, Repr

/-! ## Corpus store (`TestGenerator` in `test_generator.py`) -/

/-- Content of one file in the `out/test_cases` directory: either a plain
text file (Files encoding, one candidate per file) or a JSON record
`{"length": n, "inputs": [...]}` (JSON encoding). -/
inductive FileContent where
  | text (s : String)
  | jsonRecord (length : Nat) (inputs : List String)
deriving DecidableEq, Repr

/-- A directory: association list from file name to content, in write order. -/
abbrev Dir := List (String × FileContent)

/-- Configuration state of a constructed `TestGenerator` (the fields of
`TestGenerator.__init__` relevant to persistence). -/
structure TestGenerator where
  savingMethod : String
  saveAutomatically : Bool
deriving DecidableEq, Repr

/-- Embeds `TestGenerator.__init__`: `saving_method or "files"` falls back to the
default on `None` and on the empty string (Python falsiness); any other
string outside `{"json", "files"}` raises `ValueError`. -/
def TestGenerator.init (savingMethod : Option String)
    (saveAutomatically : Bool) : Except String TestGenerator :=
  let sm := match savingMethod with
    | none => "files"
    | some s => if s = "" then "files" else s
  if sm = "json" ∨ sm = "files" then
    Except.ok ⟨sm, saveAutomatically⟩
  else
    Except.error "Invalid argument. Use either json or files."

/-- Embeds `TestGenerator._save_as_files`: removes the whole `test_cases` directory
if it exists, recreates it, then writes each passing input to
`passing_test_<idx>` and each failing input to `failing_test_<idx>`.
The prior directory contents never survive. -/
def saveAsFiles (passing failing : List String) (prior : Option Dir) : Dir :=
  (passing.enum.map
      (fun q => ("passing_test_" ++ toString q.1, FileContent.text q.2))) ++
  (failing.enum.map
      (fun q => ("failing_test_" ++ toString q.1, FileContent.text q.2)))

/-- Embeds `TestGenerator._save_as_json`: removes the whole `test_cases` directory
if it exists, recreates it, then writes `failing_tests.json` and
`passing_tests.json` with records `{"length": len, "inputs": [...]}`. -/
def saveAsJson (passing failing : List String) (prior : Option Dir) : Dir :=
  [("failing_tests.json", FileContent.jsonRecord failing.length failing),
   ("passing_tests.json", FileContent.jsonRecord passing.length passing)]

/-- Embeds `TestGenerator._save_inputs`: a no-op when `save_automatically` is
false, otherwise dispatches on the saving method. -/
def saveInputs (g : TestGenerator) (passing failing : List String)
    (prior : Option Dir) : Option Dir :=
  if !g.saveAutomatically then prior
  else if g.savingMethod = "json" then some (saveAsJson passing failing prior)
  else if g.savingMethod = "files" then some (saveAsFiles passing failing prior)
  else prior

/-- Embeds `TestGenerator.load_failing_tests`: returns `[]` when the file does not
exist, the record's `inputs` field when it parses as JSON, and raises
(`none`) when the file content is not JSON. -/
def loadFailingTests (d : Option Dir) : Option (List String) :=
  match d with
  | none => some []
  | some files =>
    match List.lookup "failing_tests.json" files with
    | none => some []
    | some (FileContent.text _) => none
    | some (FileContent.jsonRecord _ inputs) => some inputs

/-- Embeds `TestGenerator.load_passing_tests`: mirror of `loadFailingTests` for
`passing_tests.json`. -/
def loadPassingTests (d : Option Dir) : Option (List String) :=
  match d with
  | none => some []
  | some files =>
    match List.lookup "passing_tests.json" files with
    | none => some []
    | some (FileContent.text _) => none
    | some (FileContent.jsonRecord _ inputs) => some inputs

/-! ## Location policies (`localization/modifier.py`) -/

/-- A fault location with its suspiciousness weight
(`fixkit.localization.location.WeightedIdentifier`); the identifier is an
opaque handle, the float weight is modelled by a rational. -/
structure WeightedIdentifier where
  identifier : Nat
  weight : ℚ
deriving DecidableEq, Repr

namespace TopEqualRankModifier

/-- The `top_weights` collection loop of `TopEqualRankModifier.locations`:
append each weight not yet collected, and break as soon as the collection
holds at least `top_k` weights — the break test runs after the append. -/
def topWeights (topK : Nat) : List WeightedIdentifier → List ℚ → List ℚ
  | [], acc => acc
  | s :: rest, acc =>
    let acc2 := if s.weight ∈ acc then acc else acc ++ [s.weight]
    if topK ≤ acc2.length then acc2 else topWeights topK rest acc2

/-- Embeds `TopEqualRankModifier.locations`: keep, in input order, the suggestions
whose weight is in the collected `top_weights` and strictly above the
threshold. -/
def locations (topK : Nat) (threshold : ℚ)
    (suggestions : List WeightedIdentifier) : List WeightedIdentifier :=
  let tw := topWeights topK suggestions []
  suggestions.filter (fun l => decide (l.weight ∈ tw ∧ threshold < l.weight))

end TopEqualRankModifier

/-- Modelled from the spec: the distinct weight values of a suggestion list
in input order (first occurrences).  Used only to compare the code's
`topWeights` against the spec's phrase "the first k distinct weight values
encountered in input order". -/
def distinctWeightsInOrder : List WeightedIdentifier → List ℚ → List ℚ
  | [], acc => acc
  | s :: rest, acc =>
    distinctWeightsInOrder rest (if s.weight ∈ acc then acc else acc ++ [s.weight])

/-- Modelled from the spec: `TopEqualRank(k, threshold)` keeps exactly the
items whose weight is among the first `k` distinct weight values in input
order and strictly exceeds the threshold. -/
def topEqualRankSpecLocations (topK : Nat) (threshold : ℚ)
    (suggestions : List WeightedIdentifier) : List WeightedIdentifier :=
  let tw := (distinctWeightsInOrder suggestions []).take topK
  suggestions.filter (fun l => decide (l.weight ∈ tw ∧ threshold < l.weight))

namespace SigmoidModifier

/-- Embeds the sigmoid reweighting function of `SigmoidModifier`:
`((x / m) ** a) / ((x / m) ** a + (((1 - x) / (1 - m)) ** a))`. -/
def sigmoidFunction (steepness : Nat) (midpoint : ℚ) (weight : ℚ) : ℚ :=
  let x := weight
  let a := steepness
  let m := midpoint
  ((x / m) ^ a) / ((x / m) ^ a + ((1 - x) / (1 - m)) ^ a)

end SigmoidModifier

/-! ## Solver-guided driver (`AvicennaTestGenerator.solve_formula`)

One `solver.solve()` call together with the subsequent oracle call is one
*event*: `none` models `StopIteration` raised by `solve`, and
`some (inp, verdict)` models a produced candidate (already stringified,
since the code only ever uses `str(inp)`) with its oracle verdict.  Each
pass of the `while` body consumes exactly one event. -/

/-- The local state of the `while` loop in `solve_formula`: `i` counts
accepted candidates, `restart` the solver restarts (`isla_restart`),
`failSafe` the livelock guard (`fail_safe`), `idx` the next event to
consume, and the three lists are the run-local buckets. -/
structure SolveState where
  i : Nat
  restart : Nat
  failSafe : Nat
  idx : Nat
  passing : List String
  failing : List String
  undefined : List String
deriving DecidableEq, Repr

/-- Initial loop state: `i = 0`, `isla_restart = 0`, `fail_safe = 0`,
empty run-local buckets. -/
def SolveState.initial : SolveState := ⟨0, 0, 0, 0, [], [], []⟩

/-- The `while i < max_iterations and isla_restart < 100` loop of
`solve_formula`, as a fuel-indexed step function.  Branches, in source
order: `StopIteration` from `solve` increments `isla_restart`;
`fail_safe >= 50` resets the guard and raises `StopIteration`; a duplicate
under `only_unique_inputs` bumps `fail_safe`; otherwise the verdict routes
the stringified candidate, with `UNDEFINED` bumping `fail_safe` and only
`PASSING`/`FAILING` consuming an iteration. -/
def solveLoop (maxIterations : Nat) (onlyUniqueInputs : Bool)
    (events : Nat → Option (String × OracleResult)) :
    Nat → SolveState → SolveState
  | 0, s => s
  | fuel + 1, s =>
    if s.i < maxIterations ∧ s.restart < 100 then
      match events s.idx with
      | none =>
        solveLoop maxIterations onlyUniqueInputs events fuel
          { s with restart := s.restart + 1, idx := s.idx + 1 }
      | some (inp, verdict) =>
        if 50 ≤ s.failSafe then
          solveLoop maxIterations onlyUniqueInputs events fuel
            { s with failSafe := 0, restart := s.restart + 1, idx := s.idx + 1 }
        else if onlyUniqueInputs ∧ (inp ∈ s.passing ∨ inp ∈ s.failing) then
          solveLoop maxIterations onlyUniqueInputs events fuel
            { s with failSafe := s.failSafe + 1, idx := s.idx + 1 }
        else
          match verdict with
          | OracleResult.PASSING =>
            solveLoop maxIterations onlyUniqueInputs events fuel
              { s with passing := s.passing ++ [inp], i := s.i + 1,
                       idx := s.idx + 1 }
          | OracleResult.FAILING =>
            solveLoop maxIterations onlyUniqueInputs events fuel
              { s with failing := s.failing ++ [inp], i := s.i + 1,
                       idx := s.idx + 1 }
          | OracleResult.UNDEFINED =>
            solveLoop maxIterations onlyUniqueInputs events fuel
              { s with undefined := s.undefined ++ [inp],
                       failSafe := s.failSafe + 1, idx := s.idx + 1 }
    else s

/-- Fuel that dominates the loop's termination measure
`51 * (100 - restart) + (maxIterations - i) + (50 - failSafe)` from the
initial state, so the loop always reaches its exit condition. -/
def solveFuel (maxIterations : Nat) : Nat := 51 * 100 + maxIterations + 51

/-- The driver state of an `AvicennaTestGenerator` that `solve_formula`
reads and writes: the long-lived corpus buckets and the diagnoses left by
the last `run` (`none` before any run; each diagnosis is opaque here). -/
structure GenState where
  passing : List String
  failing : List String
  diagnoses : Option (List Unit)
deriving DecidableEq, Repr

/-- Result of one `solve_formula` call: the updated driver state, the final
internal loop state, whether `_save_inputs` was reached, and whether the
"No diagnosis or formula was found." notice was logged. -/
structure SolveFormulaResult where
  state : GenState
  loopState : SolveState
  saveInvoked : Bool
  noticeLogged : Bool
deriving DecidableEq, Repr

/-- The body of `solve_formula` after a failure formula has been found:
runs the solver loop from a fresh state, optionally deduplicates the
run-local buckets (`list(set(...))`, modelled as `List.dedup`), appends
them to the long-lived buckets, and invokes `_save_inputs`. -/
def solveFormulaBody (st : GenState) (maxIterations : Nat)
    (onlyUniqueInputs : Bool)
    (events : Nat → Option (String × OracleResult)) : SolveFormulaResult :=
  let final := solveLoop maxIterations onlyUniqueInputs events
    (solveFuel maxIterations) SolveState.initial
  let p := if onlyUniqueInputs then final.passing.dedup else final.passing
  let f := if onlyUniqueInputs then final.failing.dedup else final.failing
  { state := { st with passing := st.passing ++ p, failing := st.failing ++ f },
    loopState := final,
    saveInvoked := true,
    noticeLogged := false }

/-- Embeds `AvicennaTestGenerator.solve_formula`.  With a formula argument, or a
truthy (non-`None`, non-empty) `self.diagnoses`, the solver loop runs;
otherwise the call logs "No diagnosis or formula was found." and returns
before touching the buckets or persistence. -/
def solveFormula (st : GenState) (maxIterations : Nat)
    (formula : Option String) (onlyUniqueInputs : Bool)
    (events : Nat → Option (String × OracleResult)) : SolveFormulaResult :=
  match formula, st.diagnoses with
  | some _, _ => solveFormulaBody st maxIterations onlyUniqueInputs events
  | none, some (_ :: _) => solveFormulaBody st maxIterations onlyUniqueInputs events
  | none, _ =>
    { state := st, loopState := SolveState.initial,
      saveInvoked := false, noticeLogged := true }

/-! ## Random-fuzz driver (`GrammarFuzzerTestGenerator.run`)

`fuzzer.fuzz()` never signals exhaustion, so an event is always a pair of a
candidate and its oracle verdict. -/

/-- Local state of the fuzzing loop: the global iteration counter, the two
acceptance counters, the two accumulating input lists, and the index of the
next event. -/
structure FuzzState where
  iteration : Nat
  failingCount : Nat
  passingCount : Nat
  failingInputs : List String
  passingInputs : List String
  idx : Nat
deriving DecidableEq, Repr

/-- Initial fuzz-loop state. -/
def FuzzState.initial : FuzzState := ⟨0, 0, 0, [], [], 0⟩

/-- The `while iteration < self.max_iterations` loop of
`GrammarFuzzerTestGenerator.run`.  A `continue` fires when the matching
target count is already met; otherwise a fresh input of the matching
verdict is appended and counted; the `break` of both targets being met is
checked at the end of the body except after a `continue`.  The loop runs at
most `max_iterations` times, so `fuel = max_iterations - iteration`
reproduces it exactly. -/
def fuzzLoop (numFailing numPassing maxIterations : Nat)
    (events : Nat → String × OracleResult) : Nat → FuzzState → FuzzState
  | 0, s => s
  | fuel + 1, s =>
    if s.iteration < maxIterations then
      let ev := events s.idx
      let inp := ev.1
      let s1 : FuzzState := { s with iteration := s.iteration + 1, idx := s.idx + 1 }
      if ev.2 = OracleResult.FAILING ∧ inp ∉ s1.failingInputs then
        if numFailing ≤ s1.failingCount then
          fuzzLoop numFailing numPassing maxIterations events fuel s1
        else
          let s2 : FuzzState := { s1 with
            failingInputs := s1.failingInputs ++ [inp],
            failingCount := s1.failingCount + 1 }
          if numFailing ≤ s2.failingCount ∧ numPassing ≤ s2.passingCount then s2
          else fuzzLoop numFailing numPassing maxIterations events fuel s2
      else if ev.2 = OracleResult.PASSING ∧ inp ∉ s1.passingInputs then
        if numPassing ≤ s1.passingCount then
          fuzzLoop numFailing numPassing maxIterations events fuel s1
        else
          let s2 : FuzzState := { s1 with
            passingInputs := s1.passingInputs ++ [inp],
            passingCount := s1.passingCount + 1 }
          if numFailing ≤ s2.failingCount ∧ numPassing ≤ s2.passingCount then s2
          else fuzzLoop numFailing numPassing maxIterations events fuel s2
      else
        if numFailing ≤ s1.failingCount ∧ numPassing ≤ s1.passingCount then s1
        else fuzzLoop numFailing numPassing maxIterations events fuel s1
    else s

/-- Result of `GrammarFuzzerTestGenerator.run`: the final loop state and the
driver's output buckets, which replace (not extend) `self.passing` and
`self.failing` after the unconditional `list(set(...))` deduplication. -/
structure FuzzRunResult where
  loopState : FuzzState
  passing : List String
  failing : List String
deriving DecidableEq, Repr

/-- Embeds `GrammarFuzzerTestGenerator.run` without the persistence step. -/
def grammarFuzzerRun (numFailing numPassing maxIterations : Nat)
    (events : Nat → String × OracleResult) : FuzzRunResult :=
  let final := fuzzLoop numFailing numPassing maxIterations events
    maxIterations FuzzState.initial
  { loopState := final,
    passing := final.passingInputs.dedup,
    failing := final.failingInputs.dedup }

end Fixkit

namespace Fixkit

/-! ## Claim theorems: corpus store -/

/-- C3: saving bucket lists with the JSON encoding and then loading from the
same directory with `load_failing_tests` / `load_passing_tests` returns
exactly the lists of stringified inputs that were saved, element for
element, in the same order. -/
theorem json_save_load_roundtrip (passing failing : List String)
    (prior : Option Dir) :
    loadFailingTests (some (saveAsJson passing failing prior)) = some failing ∧
    loadPassingTests (some (saveAsJson passing failing prior)) = some passing :=
  ⟨rfl, rfl⟩

/-- C4 counterexample: there is no overwrite setting, and a Files-encoding
save never appends: a previously persisted file (`failing_test_0` holding
"old") does not remain after a save that writes only one passing test. -/
theorem files_save_keeps_nothing_counterexample :
    saveAsFiles ["new"] [] (some [("failing_test_0", FileContent.text "old")]) =
      [("passing_test_0", FileContent.text "new")] ∧
    ("failing_test_0", FileContent.text "old") ∉
      saveAsFiles ["new"] [] (some [("failing_test_0", FileContent.text "old")]) := by
  constructor
  · rfl
  · decide

/-- C4 amended: persisting with the Files encoding always clears the
pre-existing target directory first — the result is independent of the
prior directory contents, and its files are exactly the
`passing_test_<i>` / `failing_test_<i>` files of the current buckets. -/
theorem files_save_always_clears (passing failing : List String)
    (d d' : Option Dir) :
    saveAsFiles passing failing d = saveAsFiles passing failing d' ∧
    (saveAsFiles passing failing d).map Prod.fst =
      (List.range passing.length).map (fun i => "passing_test_" ++ toString i) ++
      (List.range failing.length).map (fun i => "failing_test_" ++ toString i) := by
  refine ⟨rfl, ?_⟩
  simp only [saveAsFiles, List.map_append, List.map_map]
  congr 1
  · calc (passing.enum.map
          ((fun q => ("passing_test_" ++ toString q.1, FileContent.text q.2)) ·
            |>.fst))
        = passing.enum.map (fun q => "passing_test_" ++ toString q.1) := rfl
      _ = (passing.enum.map Prod.fst).map (fun i => "passing_test_" ++ toString i) := by
          rw [List.map_map]; rfl
      _ = (List.range passing.length).map (fun i => "passing_test_" ++ toString i) := by
          rw [List.enum_map_fst]
  · calc (failing.enum.map
          ((fun q => ("failing_test_" ++ toString q.1, FileContent.text q.2)) ·
            |>.fst))
        = failing.enum.map (fun q => "failing_test_" ++ toString q.1) := rfl
      _ = (failing.enum.map Prod.fst).map (fun i => "failing_test_" ++ toString i) := by
          rw [List.map_map]; rfl
      _ = (List.range failing.length).map (fun i => "failing_test_" ++ toString i) := by
          rw [List.enum_map_fst]

/-- C9 counterexample: the empty string is neither "json" nor "files", yet
construction does not raise — `saving_method or "files"` treats the empty
string as falsy and falls back to the default. -/
theorem init_empty_string_counterexample :
    ("" ≠ "json" ∧ "" ≠ "files") ∧
    TestGenerator.init (some "") true =
      Except.ok { savingMethod := "files", saveAutomatically := true } := by
  refine ⟨⟨?_, ?_⟩, rfl⟩ <;> decide

/-- C9 amended: construction with a non-empty `saving_method` string that is
neither "json" nor "files" raises immediately, before any run or
persistence; construction with "json", "files", the empty string, or no
value succeeds (the latter two fall back to "files"). -/
theorem init_saving_method_validation (s : String) (b : Bool)
    (h0 : s ≠ "") (h1 : s ≠ "json") (h2 : s ≠ "files") :
    TestGenerator.init (some s) b =
      Except.error "Invalid argument. Use either json or files." ∧
    TestGenerator.init (some "json") b =
      Except.ok { savingMethod := "json", saveAutomatically := b } ∧
    TestGenerator.init (some "files") b =
      Except.ok { savingMethod := "files", saveAutomatically := b } ∧
    TestGenerator.init (some "") b =
      Except.ok { savingMethod := "files", saveAutomatically := b } ∧
    TestGenerator.init none b =
      Except.ok { savingMethod := "files", saveAutomatically := b } := by
  refine ⟨?_, rfl, rfl, rfl, rfl⟩
  simp [TestGenerator.init, h0, h1, h2]

/-- C9 amended, witness at `s = "xml"`. -/
theorem init_saving_method_validation_witness :
    ("xml" ≠ "" ∧ "xml" ≠ "json" ∧ "xml" ≠ "files") ∧
    TestGenerator.init (some "xml") true =
      Except.error "Invalid argument. Use either json or files." :=
  ⟨⟨by decide, by decide, by decide⟩,
    (init_saving_method_validation "xml" true (by decide) (by decide)
      (by decide)).1⟩

/-- C10: every persistence call through `_save_inputs` that actually saves
(`save_automatically` true, valid encoding) first deletes the entire
`test_cases` directory: the result is independent of the prior directory
contents, and a JSON-encoding save leaves exactly the two JSON files, so
per-input text files from an earlier Files-encoding save are gone. -/
theorem save_inputs_clears_directory (g : TestGenerator)
    (passing failing : List String) (d : Option Dir)
    (hsa : g.saveAutomatically = true)
    (hm : g.savingMethod = "json" ∨ g.savingMethod = "files") :
    saveInputs g passing failing d = saveInputs g passing failing none ∧
    (g.savingMethod = "json" →
      (saveInputs g passing failing d).map (fun files => files.map Prod.fst) =
        some ["failing_tests.json", "passing_tests.json"]) := by
  rcases hm with h | h <;>
    simp [saveInputs, hsa, h, saveAsJson, saveAsFiles]

/-- C10 witness: a JSON save over a directory still holding a Files-encoding
text file. -/
theorem save_inputs_clears_directory_witness :
    ((⟨"json", true⟩ : TestGenerator).saveAutomatically = true ∧
      ((⟨"json", true⟩ : TestGenerator).savingMethod = "json" ∨
        (⟨"json", true⟩ : TestGenerator).savingMethod = "files")) ∧
    (saveInputs ⟨"json", true⟩ ["p0"] ["f0"]
        (some [("passing_test_0", FileContent.text "stale")]) =
      saveInputs ⟨"json", true⟩ ["p0"] ["f0"] none ∧
    ((⟨"json", true⟩ : TestGenerator).savingMethod = "json" →
      (saveInputs ⟨"json", true⟩ ["p0"] ["f0"]
          (some [("passing_test_0", FileContent.text "stale")])).map
          (fun files => files.map Prod.fst) =
        some ["failing_tests.json", "passing_tests.json"])) :=
  ⟨⟨rfl, Or.inl rfl⟩,
    save_inputs_clears_directory ⟨"json", true⟩ ["p0"] ["f0"]
      (some [("passing_test_0", FileContent.text "stale")]) rfl (Or.inl rfl)⟩

/-! ## Claim theorems: solver-guided driver, easy cases -/

/-- C8: calling `solve_formula` with no formula argument when no prior
diagnosis exists is a no-op that logs a notice and returns: the buckets are
unchanged and `_save_inputs` is never reached. -/
theorem solve_formula_no_diagnosis_noop (st : GenState) (maxIterations : Nat)
    (onlyUniqueInputs : Bool)
    (events : Nat → Option (String × OracleResult))
    (h : st.diagnoses = none) :
    solveFormula st maxIterations none onlyUniqueInputs events =
      { state := st, loopState := SolveState.initial,
        saveInvoked := false, noticeLogged := true } := by
  unfold solveFormula
  rw [h]

/-- C8 witness: a driver state with nonempty buckets and no diagnoses. -/
theorem solve_formula_no_diagnosis_noop_witness :
    (GenState.mk ["x"] ["y"] none).diagnoses = none ∧
    solveFormula ⟨["x"], ["y"], none⟩ 5 none true (fun _ => none) =
      { state := ⟨["x"], ["y"], none⟩, loopState := SolveState.initial,
        saveInvoked := false, noticeLogged := true } :=
  ⟨rfl, solve_formula_no_diagnosis_noop ⟨["x"], ["y"], none⟩ 5 true
    (fun _ => none) rfl⟩

/-! ## Claim theorems: TopEqualRank -/

/-- Helper: `distinctWeightsInOrder` only ever appends to its accumulator. -/
theorem distinctWeightsInOrder_extends (l : List WeightedIdentifier) :
    ∀ acc : List ℚ, ∃ t, distinctWeightsInOrder l acc = acc ++ t := by
  induction l with
  | nil => intro acc; exact ⟨[], by simp [distinctWeightsInOrder]⟩
  | cons s rest ih =>
    intro acc
    unfold distinctWeightsInOrder
    by_cases hmem : s.weight ∈ acc
    · obtain ⟨t, ht⟩ := ih acc
      exact ⟨t, by rw [if_pos hmem]; exact ht⟩
    · obtain ⟨t, ht⟩ := ih (acc ++ [s.weight])
      exact ⟨[s.weight] ++ t, by rw [if_neg hmem, ht, List.append_assoc]⟩

/-- While the accumulator is strictly shorter than `top_k`, the collection
loop of `TopEqualRankModifier.locations` computes the first `top_k`
distinct weights in input order. -/
theorem topWeights_eq_take (topK : Nat) :
    ∀ (l : List WeightedIdentifier) (acc : List ℚ), acc.length < topK →
      TopEqualRankModifier.topWeights topK l acc =
        (distinctWeightsInOrder l acc).take topK := by
  intro l
  induction l with
  | nil =>
    intro acc hlt
    unfold TopEqualRankModifier.topWeights distinctWeightsInOrder
    rw [List.take_of_length_le (Nat.le_of_lt hlt)]
  | cons s rest ih =>
    intro acc hlt
    simp only [TopEqualRankModifier.topWeights, distinctWeightsInOrder]
    by_cases hmem : s.weight ∈ acc
    · rw [if_pos hmem, if_neg (by omega : ¬ topK ≤ acc.length)]
      exact ih acc hlt
    · rw [if_neg hmem]
      by_cases hfull : topK ≤ (acc ++ [s.weight]).length
      · rw [if_pos hfull]
        obtain ⟨t, ht⟩ := distinctWeightsInOrder_extends rest (acc ++ [s.weight])
        rw [ht, List.take_append_of_le_length (by simpa using hfull),
          List.take_of_length_le (by simp at hfull ⊢; omega)]
      · rw [if_neg hfull]
        exact ih (acc ++ [s.weight]) (by simp at hfull ⊢; omega)

/-- C5 counterexample: with `k = 0` the break test of the collection loop
runs only after appending, so the first weight value is still collected and
its items are returned, while "the items whose weight is among the first 0
distinct weight values" is the empty list. -/
theorem top_equal_rank_k0_counterexample :
    TopEqualRankModifier.locations 0 0 [⟨0, 1/2⟩] = [⟨0, 1/2⟩] ∧
    topEqualRankSpecLocations 0 0 [⟨0, 1/2⟩] = [] ∧
    TopEqualRankModifier.locations 0 0 [⟨0, 1/2⟩] ≠
      topEqualRankSpecLocations 0 0 [⟨0, 1/2⟩] := by
  refine ⟨?_, ?_, ?_⟩ <;>
    norm_num [TopEqualRankModifier.locations, TopEqualRankModifier.topWeights,
      topEqualRankSpecLocations, distinctWeightsInOrder, List.filter]

/-- C5 amended: for every `k ≥ 1`, `TopEqualRank(k, threshold).locations`
returns, in input order, exactly the items whose weight is among the first
`k` distinct weight values encountered in input order and strictly above
the threshold; in particular `TopEqualRank(k=2, threshold=0.2)` over
weights `[0.9, 0.9, 0.5, 0.1]` returns the first three items. -/
theorem top_equal_rank_locations_spec (topK : Nat) (threshold : ℚ)
    (suggestions : List WeightedIdentifier) (hk : 1 ≤ topK) :
    TopEqualRankModifier.locations topK threshold suggestions =
      topEqualRankSpecLocations topK threshold suggestions ∧
    TopEqualRankModifier.locations 2 (1/5)
      [⟨0, 9/10⟩, ⟨1, 9/10⟩, ⟨2, 1/2⟩, ⟨3, 1/10⟩] =
      [⟨0, 9/10⟩, ⟨1, 9/10⟩, ⟨2, 1/2⟩] := by
  constructor
  · unfold TopEqualRankModifier.locations topEqualRankSpecLocations
    rw [topWeights_eq_take topK suggestions []
      (by simp only [List.length_nil]; omega)]
  · norm_num [TopEqualRankModifier.locations, TopEqualRankModifier.topWeights,
      List.filter]

/-- C5 amended, witness at the claim's own example. -/
theorem top_equal_rank_locations_spec_witness :
    1 ≤ 2 ∧
    TopEqualRankModifier.locations 2 (1/5)
      [⟨0, 9/10⟩, ⟨1, 9/10⟩, ⟨2, 1/2⟩, ⟨3, 1/10⟩] =
      topEqualRankSpecLocations 2 (1/5)
        [⟨0, 9/10⟩, ⟨1, 9/10⟩, ⟨2, 1/2⟩, ⟨3, 1/10⟩] :=
  ⟨by omega,
    (top_equal_rank_locations_spec 2 (1/5)
      [⟨0, 9/10⟩, ⟨1, 9/10⟩, ⟨2, 1/2⟩, ⟨3, 1/10⟩] (by omega)).1⟩

/-! ## Claim theorems: solver exhaustion (C2) -/

/-- When every solve request signals exhaustion, each loop pass only
increments the restart counter, until it reaches 100. -/
theorem solveLoop_all_exhausted (maxIterations : Nat) (onlyUniqueInputs : Bool) :
    ∀ (fuel : Nat) (s : SolveState), s.i < maxIterations → s.restart ≤ 100 →
      100 - s.restart ≤ fuel →
      solveLoop maxIterations onlyUniqueInputs (fun _ => none) fuel s =
        { s with restart := 100, idx := s.idx + (100 - s.restart) } := by
  intro fuel
  induction fuel with
  | zero =>
    intro s hi hr hf
    obtain ⟨si, sr, sf, sx, sp, sfl, su⟩ := s
    simp only at hi hr hf ⊢
    have h100 : sr = 100 := by omega
    subst h100
    simp only [solveLoop, SolveState.mk.injEq, Nat.sub_self, Nat.add_zero]
  | succ n ih =>
    intro s hi hr hf
    obtain ⟨si, sr, sf, sx, sp, sfl, su⟩ := s
    simp only at hi hr hf ⊢
    by_cases hlt : sr < 100
    · unfold solveLoop
      rw [if_pos (⟨hi, hlt⟩ : si < maxIterations ∧ sr < 100)]
      rw [ih ⟨si, sr + 1, sf, sx + 1, sp, sfl, su⟩ hi
        (by show sr + 1 ≤ 100; omega) (by show 100 - (sr + 1) ≤ n; omega)]
      simp only [SolveState.mk.injEq, true_and, and_true]
      omega
    · have h100 : sr = 100 := by omega
      subst h100
      unfold solveLoop
      rw [if_neg (by omega : ¬ (si < maxIterations ∧ 100 < 100))]
      simp only [SolveState.mk.injEq, Nat.sub_self, Nat.add_zero]

/-- C2: a `solve_formula` run (with a formula present) whose source signals
exhaustion on every solve request terminates with the loop guard itself
(no fuel exhaustion, no exception), performs exactly 100 restarts, accepts
zero candidates, and leaves the long-lived buckets unchanged. -/
theorem solve_formula_all_exhausted (st : GenState) (maxIterations : Nat)
    (formula : String) (onlyUniqueInputs : Bool)
    (h : 0 < maxIterations) :
    (solveFormula st maxIterations (some formula) onlyUniqueInputs
        (fun _ => none)).loopState =
      { i := 0, restart := 100, failSafe := 0, idx := 100,
        passing := [], failing := [], undefined := [] } ∧
    ¬ ((solveFormula st maxIterations (some formula) onlyUniqueInputs
        (fun _ => none)).loopState.i < maxIterations ∧
       (solveFormula st maxIterations (some formula) onlyUniqueInputs
        (fun _ => none)).loopState.restart < 100) ∧
    (solveFormula st maxIterations (some formula) onlyUniqueInputs
        (fun _ => none)).state = st := by
  have hloop :
      solveLoop maxIterations onlyUniqueInputs (fun _ => none)
        (solveFuel maxIterations) SolveState.initial =
      { i := 0, restart := 100, failSafe := 0, idx := 100,
        passing := [], failing := [], undefined := [] } := by
    rw [solveLoop_all_exhausted maxIterations onlyUniqueInputs
      (solveFuel maxIterations) SolveState.initial
      (by show 0 < maxIterations; exact h)
      (by show (0 : Nat) ≤ 100; omega)
      (by show 100 - (0 : Nat) ≤ solveFuel maxIterations; unfold solveFuel; omega)]
    rfl
  have hform :
      solveFormula st maxIterations (some formula) onlyUniqueInputs
        (fun _ => none) =
      solveFormulaBody st maxIterations onlyUniqueInputs (fun _ => none) := rfl
  rw [hform]
  simp only [solveFormulaBody, hloop]
  cases onlyUniqueInputs <;> simp

/-- C2 witness at `max_iterations = 3`. -/
theorem solve_formula_all_exhausted_witness :
    0 < 3 ∧
    (solveFormula ⟨["p"], ["f"], none⟩ 3 (some "phi") true
        (fun _ => none)).loopState =
      { i := 0, restart := 100, failSafe := 0, idx := 100,
        passing := [], failing := [], undefined := [] } ∧
    (solveFormula ⟨["p"], ["f"], none⟩ 3 (some "phi") true
        (fun _ => none)).state = ⟨["p"], ["f"], none⟩ :=
  ⟨by omega,
    (solve_formula_all_exhausted ⟨["p"], ["f"], none⟩ 3 "phi" true
      (by omega)).1,
    (solve_formula_all_exhausted ⟨["p"], ["f"], none⟩ 3 "phi" true
      (by omega)).2.2⟩

/-! ## Claim theorems: uniqueness of buckets (C1) -/

/-- With `only_unique_inputs` set, the solver loop preserves freedom from
duplicates across the concatenation of its run-local buckets: a candidate
is only appended when its string form is in neither bucket. -/
theorem solveLoop_unique_nodup (maxIterations : Nat)
    (events : Nat → Option (String × OracleResult)) :
    ∀ (fuel : Nat) (s : SolveState), (s.passing ++ s.failing).Nodup →
      ((solveLoop maxIterations true events fuel s).passing ++
       (solveLoop maxIterations true events fuel s).failing).Nodup := by
  intro fuel
  induction fuel with
  | zero => intro s h; simpa [solveLoop] using h
  | succ n ih =>
    intro s h
    unfold solveLoop
    by_cases hc : s.i < maxIterations ∧ s.restart < 100
    · rw [if_pos hc]
      cases hev : events s.idx with
      | none => exact ih _ (by simpa using h)
      | some pair =>
        obtain ⟨inp, verdict⟩ := pair
        dsimp only
        by_cases h50 : 50 ≤ s.failSafe
        · rw [if_pos h50]
          exact ih _ (by simpa using h)
        · rw [if_neg h50]
          by_cases hdup : inp ∈ s.passing ∨ inp ∈ s.failing
          · rw [if_pos ⟨rfl, hdup⟩]
            exact ih _ (by simpa using h)
          · rw [if_neg (fun hh => hdup hh.2)]
            push_neg at hdup
            cases verdict with
            | PASSING =>
              apply ih
              show (s.passing ++ [inp] ++ s.failing).Nodup
              rw [List.append_assoc, List.singleton_append,
                List.nodup_middle, List.nodup_cons]
              exact ⟨by simp [hdup.1, hdup.2], h⟩
            | FAILING =>
              apply ih
              show (s.passing ++ (s.failing ++ [inp])).Nodup
              rw [← List.append_assoc]
              have heq : s.passing ++ s.failing ++ [inp] =
                  (s.passing ++ s.failing) ++ inp :: [] := rfl
              rw [heq, List.nodup_middle, List.nodup_cons]
              exact ⟨by simpa using hdup, by simpa using h⟩
            | UNDEFINED =>
              exact ih _ (by simpa using h)
    · rw [if_neg hc]
      exact h

/-- The run branch of `solve_formula` with `only_unique_inputs=true`,
starting from empty long-lived buckets, ends with duplicate-free and
disjoint buckets. -/
theorem solveFormulaBody_nodup (maxIterations : Nat) (d : Option (List Unit))
    (events : Nat → Option (String × OracleResult)) :
    (solveFormulaBody ⟨[], [], d⟩ maxIterations true events).state.passing.Nodup ∧
    (solveFormulaBody ⟨[], [], d⟩ maxIterations true events).state.failing.Nodup ∧
    ∀ x, x ∈ (solveFormulaBody ⟨[], [], d⟩ maxIterations true events).state.passing →
      x ∉ (solveFormulaBody ⟨[], [], d⟩ maxIterations true events).state.failing := by
  have hnd := solveLoop_unique_nodup maxIterations events
    (solveFuel maxIterations) SolveState.initial (by simp [SolveState.initial])
  have hp : (solveLoop maxIterations true events (solveFuel maxIterations)
      SolveState.initial).passing.Nodup := hnd.of_append_left
  have hf : (solveLoop maxIterations true events (solveFuel maxIterations)
      SolveState.initial).failing.Nodup := hnd.of_append_right
  have hdisj := List.disjoint_of_nodup_append hnd
  simp only [solveFormulaBody, if_true, List.nil_append]
  rw [hp.dedup, hf.dedup]
  exact ⟨hp, hf, fun x hx hx' => hdisj hx hx'⟩

/-- C1 counterexample: the per-run uniqueness check consults only the
run-local buckets, so a run over a corpus that already contains "a" appends
"a" again, leaving a duplicate in `self.passing` at the end of the run. -/
theorem solve_formula_unique_inputs_counterexample :
    (solveFormula ⟨["a"], [], some [()]⟩ 1 none true
      (fun _ => some ("a", OracleResult.PASSING))).state.passing = ["a", "a"] ∧
    ¬ (solveFormula ⟨["a"], [], some [()]⟩ 1 none true
      (fun _ => some ("a", OracleResult.PASSING))).state.passing.Nodup := by
  exact ⟨by decide, by decide⟩

/-- C1 amended: for every run of `solve_formula` with
`only_unique_inputs=true` that starts with empty passing and failing
buckets, for every behavior of the solver and the oracle, at the end of the
run no string occurs twice in one bucket and no string occurs in both
buckets. -/
theorem solve_formula_unique_inputs_nodup (st : GenState)
    (maxIterations : Nat) (formula : Option String)
    (events : Nat → Option (String × OracleResult))
    (hp : st.passing = []) (hf : st.failing = []) :
    (solveFormula st maxIterations formula true events).state.passing.Nodup ∧
    (solveFormula st maxIterations formula true events).state.failing.Nodup ∧
    ∀ x, x ∈ (solveFormula st maxIterations formula true events).state.passing →
      x ∉ (solveFormula st maxIterations formula true events).state.failing := by
  obtain ⟨sp, sf, sd⟩ := st
  simp only at hp hf
  subst hp
  subst hf
  rcases formula with _ | f
  · rcases sd with _ | ⟨_ | ⟨d, ds⟩⟩
    · exact ⟨List.nodup_nil, List.nodup_nil, by simp [solveFormula]⟩
    · exact ⟨List.nodup_nil, List.nodup_nil, by simp [solveFormula]⟩
    · exact solveFormulaBody_nodup maxIterations (some (d :: ds)) events
  · exact solveFormulaBody_nodup maxIterations sd events

/-- C1 amended, witness: empty initial buckets, one passing candidate. -/
theorem solve_formula_unique_inputs_nodup_witness :
    ((GenState.mk [] [] none).passing = [] ∧
      (GenState.mk [] [] none).failing = []) ∧
    (solveFormula ⟨[], [], none⟩ 1 (some "phi") true
      (fun _ => some ("a", OracleResult.PASSING))).state.passing.Nodup ∧
    (solveFormula ⟨[], [], none⟩ 1 (some "phi") true
      (fun _ => some ("a", OracleResult.PASSING))).state.failing.Nodup :=
  ⟨⟨rfl, rfl⟩,
    (solve_formula_unique_inputs_nodup ⟨[], [], none⟩ 1 (some "phi")
      (fun _ => some ("a", OracleResult.PASSING)) rfl rfl).1,
    (solve_formula_unique_inputs_nodup ⟨[], [], none⟩ 1 (some "phi")
      (fun _ => some ("a", OracleResult.PASSING)) rfl rfl).2.1⟩

/-! ## Claim theorems: random-fuzz driver (C6) -/

/-- When the oracle never answers `FAILING` (and the failing target is
positive, so the `break` can never fire), the fuzz loop runs through all
`max_iterations` iterations, collects no failing inputs, and keeps the
passing list duplicate-free and within its target. -/
theorem fuzzLoop_never_failing (numFailing numPassing maxIterations : Nat)
    (events : Nat → String × OracleResult)
    (hnf : 0 < numFailing)
    (hev : ∀ n, (events n).2 ≠ OracleResult.FAILING) :
    ∀ (fuel : Nat) (s : FuzzState),
      maxIterations - s.iteration ≤ fuel → s.iteration ≤ maxIterations →
      s.failingCount = 0 → s.failingInputs = [] →
      s.passingInputs.Nodup → s.passingCount = s.passingInputs.length →
      s.passingCount ≤ numPassing →
      (fuzzLoop numFailing numPassing maxIterations events fuel s).iteration
          = maxIterations ∧
      (fuzzLoop numFailing numPassing maxIterations events fuel s).failingInputs
          = [] ∧
      (fuzzLoop numFailing numPassing maxIterations events fuel s).passingInputs.Nodup ∧
      (fuzzLoop numFailing numPassing maxIterations events fuel
          s).passingInputs.length ≤ numPassing := by
  intro fuel
  induction fuel with
  | zero =>
    intro s h1 h2 hfc hfi hnd hlen hle
    obtain ⟨it, fc, pc, fi, pi, ix⟩ := s
    simp only at h1 h2 hfc hfi hnd hlen hle
    simp only [fuzzLoop]
    exact ⟨by omega, hfi, hnd, by omega⟩
  | succ n ih =>
    intro s h1 h2 hfc hfi hnd hlen hle
    obtain ⟨it, fc, pc, fi, pi, ix⟩ := s
    simp only at h1 h2 hfc hfi hnd hlen hle
    subst hfc
    subst hfi
    unfold fuzzLoop
    by_cases hit : it < maxIterations
    · rw [if_pos hit]
      dsimp only
      rw [if_neg (fun hh => hev ix hh.1)]
      by_cases hpass :
          (events ix).2 = OracleResult.PASSING ∧ (events ix).1 ∉ pi
      · rw [if_pos hpass]
        by_cases hfull : numPassing ≤ pc
        · rw [if_pos hfull]
          exact ih ⟨it + 1, 0, pc, [], pi, ix + 1⟩
            (by show maxIterations - (it + 1) ≤ n; omega)
            (by show it + 1 ≤ maxIterations; omega) rfl rfl hnd hlen hle
        · rw [if_neg hfull]
          rw [if_neg (by show ¬ (numFailing ≤ 0 ∧ numPassing ≤ pc + 1); omega)]
          refine ih ⟨it + 1, 0, pc + 1, [], pi ++ [(events ix).1], ix + 1⟩
            (by show maxIterations - (it + 1) ≤ n; omega)
            (by show it + 1 ≤ maxIterations; omega) rfl rfl ?_ ?_ ?_
          · show (pi ++ [(events ix).1]).Nodup
            rw [(List.perm_append_singleton (events ix).1 pi).nodup_iff,
              List.nodup_cons]
            exact ⟨hpass.2, hnd⟩
          · show pc + 1 = (pi ++ [(events ix).1]).length
            simp [hlen]
          · show pc + 1 ≤ numPassing
            omega
      · rw [if_neg hpass]
        rw [if_neg (by show ¬ (numFailing ≤ 0 ∧ numPassing ≤ pc); omega)]
        exact ih ⟨it + 1, 0, pc, [], pi, ix + 1⟩
          (by show maxIterations - (it + 1) ≤ n; omega)
          (by show it + 1 ≤ maxIterations; omega) rfl rfl hnd hlen hle
    · rw [if_neg hit]
      exact ⟨by show it = maxIterations; omega, rfl, hnd, by show pi.length ≤ numPassing; omega⟩

/-- C6: a random-fuzz run with `num_failing = 5`, `num_passing = 5`,
`max_iterations = 1000` against an oracle that never returns `FAILING`
terminates after exactly 1000 iterations with an empty failing bucket and a
passing bucket of at most 5 pairwise-distinct entries. -/
theorem grammar_fuzzer_run_never_failing (events : Nat → String × OracleResult)
    (hev : ∀ n, (events n).2 ≠ OracleResult.FAILING) :
    (grammarFuzzerRun 5 5 1000 events).loopState.iteration = 1000 ∧
    (grammarFuzzerRun 5 5 1000 events).failing = [] ∧
    (grammarFuzzerRun 5 5 1000 events).passing.length ≤ 5 ∧
    (grammarFuzzerRun 5 5 1000 events).passing.Nodup := by
  obtain ⟨h1, h2, h3, h4⟩ := fuzzLoop_never_failing 5 5 1000 events
    (by omega) hev 1000 FuzzState.initial
    (by show 1000 - 0 ≤ 1000; omega) (by show 0 ≤ 1000; omega)
    rfl rfl List.nodup_nil rfl (by show 0 ≤ 5; omega)
  unfold grammarFuzzerRun
  refine ⟨h1, ?_, ?_, List.nodup_dedup _⟩
  · show (fuzzLoop 5 5 1000 events 1000 FuzzState.initial).failingInputs.dedup = []
    rw [h2]
    rfl
  · show (fuzzLoop 5 5 1000 events 1000 FuzzState.initial).passingInputs.dedup.length ≤ 5
    rw [h3.dedup]
    exact h4

/-- C6 witness: a constant passing oracle. -/
theorem grammar_fuzzer_run_never_failing_witness :
    (∀ n : Nat, ((fun _ : Nat => ("a", OracleResult.PASSING)) n).2 ≠ OracleResult.FAILING) ∧
    (grammarFuzzerRun 5 5 1000 (fun _ => ("a", OracleResult.PASSING))).loopState.iteration = 1000 ∧
    (grammarFuzzerRun 5 5 1000 (fun _ => ("a", OracleResult.PASSING))).failing = [] ∧
    (grammarFuzzerRun 5 5 1000 (fun _ => ("a", OracleResult.PASSING))).passing.length ≤ 5 := by
  have hev : ∀ n : Nat,
      ((fun _ : Nat => ("a", OracleResult.PASSING)) n).2 ≠ OracleResult.FAILING := by
    intro n
    show OracleResult.PASSING ≠ OracleResult.FAILING
    decide
  exact ⟨hev,
    (grammar_fuzzer_run_never_failing (fun _ => ("a", OracleResult.PASSING)) hev).1,
    (grammar_fuzzer_run_never_failing (fun _ => ("a", OracleResult.PASSING)) hev).2.1,
    (grammar_fuzzer_run_never_failing (fun _ => ("a", OracleResult.PASSING)) hev).2.2.1⟩

/-! ## Claim theorems: sigmoid reweighting (C7) -/

/-- A ratio `A / (A + B)` exceeds one half when the competitor `B` is
nonnegative and strictly smaller than `A`. -/
theorem ratio_gt_half {A B : ℚ} (hB : 0 ≤ B) (hBA : B < A) :
    1/2 < A / (A + B) := by
  have hD : 0 < A + B := by linarith
  rw [lt_div_iff₀ hD]
  linarith

/-- A ratio `A / (A + B)` is below one half when `A` is nonnegative and
strictly smaller than `B`. -/
theorem ratio_lt_half {A B : ℚ} (hA : 0 ≤ A) (hAB : A < B) :
    A / (A + B) < 1/2 := by
  have hD : 0 < A + B := by linarith
  rw [div_lt_iff₀ hD]
  linarith

/-- Monotonicity of `A / (A + B)` under the cross-multiplication
condition `A * D ≤ C * B`. -/
theorem ratio_mono {A B C D : ℚ} (hD1 : 0 < A + B) (hD2 : 0 < C + D)
    (hcross : A * D ≤ C * B) : A / (A + B) ≤ C / (C + D) := by
  rw [div_le_div_iff₀ hD1 hD2]
  nlinarith [hcross]

/-- C7: for `Sigmoid(steepness=10, midpoint=0.8)` the reweighting function
maps `0.8` to exactly `0.5`, maps every weight in `(0.8, 1]` strictly above
`0.5`, maps every weight in `[0, 0.8)` strictly below `0.5`, and is
monotone non-decreasing on `[0, 1]`. -/
theorem sigmoid_midpoint_properties :
    SigmoidModifier.sigmoidFunction 10 (4/5) (4/5) = 1/2 ∧
    (∀ x : ℚ, 4/5 < x → x ≤ 1 →
      1/2 < SigmoidModifier.sigmoidFunction 10 (4/5) x) ∧
    (∀ x : ℚ, 0 ≤ x → x < 4/5 →
      SigmoidModifier.sigmoidFunction 10 (4/5) x < 1/2) ∧
    (∀ x y : ℚ, 0 ≤ x → x ≤ y → y ≤ 1 →
      SigmoidModifier.sigmoidFunction 10 (4/5) x ≤
        SigmoidModifier.sigmoidFunction 10 (4/5) y) := by
  have hxm : ∀ x : ℚ, x / (4/5 : ℚ) = 5 * x / 4 := fun x => by ring
  have hym : ∀ x : ℚ, (1 - x) / (1 - (4/5 : ℚ)) = 5 * (1 - x) := fun x => by ring
  refine ⟨by norm_num [SigmoidModifier.sigmoidFunction], ?_, ?_, ?_⟩
  · intro x h1 h2
    show (1:ℚ)/2 <
      ((x / (4/5)) ^ 10) / ((x / (4/5)) ^ 10 + ((1 - x) / (1 - (4/5))) ^ 10)
    apply ratio_gt_half
    · exact pow_nonneg (by rw [hym]; linarith) 10
    · apply pow_lt_pow_left₀ _ (by rw [hym]; linarith) (by norm_num)
      rw [hym, hxm]
      nlinarith
  · intro x h1 h2
    show ((x / (4/5)) ^ 10) /
      ((x / (4/5)) ^ 10 + ((1 - x) / (1 - (4/5))) ^ 10) < (1:ℚ)/2
    apply ratio_lt_half
    · exact pow_nonneg (by rw [hxm]; linarith) 10
    · apply pow_lt_pow_left₀ _ (by rw [hxm]; linarith) (by norm_num)
      rw [hym, hxm]
      nlinarith
  · intro x y hx hxy hy1
    show ((x / (4/5)) ^ 10) /
        ((x / (4/5)) ^ 10 + ((1 - x) / (1 - (4/5))) ^ 10) ≤
      ((y / (4/5)) ^ 10) /
        ((y / (4/5)) ^ 10 + ((1 - y) / (1 - (4/5))) ^ 10)
    have hA : ∀ z : ℚ, 0 ≤ z → (0:ℚ) ≤ (z / (4/5)) ^ 10 :=
      fun z hz => pow_nonneg (by rw [hxm]; linarith) 10
    have hB : ∀ z : ℚ, z ≤ 1 → (0:ℚ) ≤ ((1 - z) / (1 - (4/5))) ^ 10 :=
      fun z hz => pow_nonneg (by rw [hym]; linarith) 10
    have hDpos : ∀ z : ℚ, 0 ≤ z → z ≤ 1 →
        (0:ℚ) < (z / (4/5)) ^ 10 + ((1 - z) / (1 - (4/5))) ^ 10 := by
      intro z hz0 hz1
      rcases eq_or_lt_of_le hz0 with h | h
      · have hBpos : ((1 - z) / (1 - (4/5:ℚ))) ^ 10 > 0 := by
          apply pow_pos
          rw [hym]
          linarith
        have := hA z hz0
        linarith
      · have hApos : ((z / (4/5:ℚ))) ^ 10 > 0 := by
          apply pow_pos
          rw [hxm]
          linarith
        have := hB z hz1
        linarith
    apply ratio_mono (hDpos x hx (by linarith)) (hDpos y (by linarith) hy1)
    calc (x / (4/5)) ^ 10 * ((1 - y) / (1 - (4/5))) ^ 10
        = ((x / (4/5)) * ((1 - y) / (1 - (4/5)))) ^ 10 := by rw [mul_pow]
      _ ≤ ((y / (4/5)) * ((1 - x) / (1 - (4/5)))) ^ 10 := by
          apply pow_le_pow_left₀
          · rw [hxm, hym]; nlinarith
          · rw [hxm, hym, hxm, hym]; nlinarith
      _ = (y / (4/5)) ^ 10 * ((1 - x) / (1 - (4/5))) ^ 10 := by rw [mul_pow]

/-- C7 witness: each hypothesis-bearing part instantiated at a concrete
weight. -/
theorem sigmoid_midpoint_properties_witness :
    ((4:ℚ)/5 < 9/10 ∧ (9:ℚ)/10 ≤ 1 ∧
      1/2 < SigmoidModifier.sigmoidFunction 10 (4/5) (9/10)) ∧
    ((0:ℚ) ≤ 1/2 ∧ (1:ℚ)/2 < 4/5 ∧
      SigmoidModifier.sigmoidFunction 10 (4/5) (1/2) < 1/2) ∧
    ((0:ℚ) ≤ 1/4 ∧ (1:ℚ)/4 ≤ 3/4 ∧ (3:ℚ)/4 ≤ 1 ∧
      SigmoidModifier.sigmoidFunction 10 (4/5) (1/4) ≤
        SigmoidModifier.sigmoidFunction 10 (4/5) (3/4)) :=
  ⟨⟨by norm_num, by norm_num,
      sigmoid_midpoint_properties.2.1 (9/10) (by norm_num) (by norm_num)⟩,
    ⟨by norm_num, by norm_num,
      sigmoid_midpoint_properties.2.2.1 (1/2) (by norm_num) (by norm_num)⟩,
    ⟨by norm_num, by norm_num, by norm_num,
      sigmoid_midpoint_properties.2.2.2 (1/4) (3/4) (by norm_num) (by norm_num)
        (by norm_num)⟩⟩

end Fixkit

